import Mathlib

/-!
Shallow embedding of the goredis client (package msgredis, file conn.go):
the RESP frame codec, the Call request/response primitive, the CallN retry
wrapper, pipelining (PipeSend/PipeExec), transactions (TransExec) and Watch.

Conventions of the embedding:
* bytes are natural numbers (ASCII codes); a byte stream is a `List Nat`;
* Go `(interface{}, error)` pairs are modelled as `Option RVal × Option RErr`,
  where `none` in the first component is the nil interface value;
* a Go nil slice stored inside a non-nil interface (the typed-nil case that
  arises when `parseArray` returns `nil, ...` through `readResponse`) is
  modelled as `some (RVal.arr none)`, distinct from the nil interface `none`;
* runtime panics (negative slice length / negative slice index, failed type
  assertions) are modelled as the distinguished outcome `RErr.panicked`;
* the reader is pure: `bufio.Reader.ReadBytes` and `io.ReadFull` act on the
  explicit stream, and the decode recursion carries a fuel counter so that
  every definition is a computable structural recursion.
-/

/-- Byte strings are lists of ASCII codes. -/
abbrev Bytes := List Nat

/-- Build a byte string from character literals. -/
def cb (l : List Char) : Bytes := l.map Char.toNat

/-- Carriage-return / line-feed pair, the RESP line terminator. -/
def CRLF : Bytes := [13, 10]

/-- Errors a connection operation can produce, mirroring conn.go:
`readErr` is a `bufio` read failure (EOF before a newline), `badTerminator`
is `ErrBadTerminator`, `readFull` is a short `io.ReadFull`, `errNil` is
`ErrNil`, `panicked` marks a runtime panic, `fuelOut` is an artifact of the
fuelled decode recursion, and `common m` is any error built as
`errors.New(CommonErrPrefix + m)` (Error replies and decode errors). -/
inductive RErr where
  | readErr : RErr
  | badTerminator : RErr
  | readFull : RErr
  | panicked : RErr
  | errNil : RErr
  | fuelOut : RErr
  | common : Bytes → RErr
deriving DecidableEq, Repr

/-- Decoded reply values as stored in a Go `interface{}`:
`bytes` is a `[]byte` (simple string or bulk payload), `int` an `int64`,
`arr` a `[]interface{}` whose `none` form is the typed nil slice. Elements of
an array are again interface values, hence `Option RVal`. -/
inductive RVal where
  | bytes : Bytes → RVal
  | int : Int → RVal
  | arr : Option (List (Option RVal)) → RVal

/-- Bytes of `CommonErrPrefix` (the string CommonError followed by a colon). -/
def commonTag : Bytes := cb ['C', 'o', 'm', 'm', 'o', 'n', 'E', 'r', 'r', 'o', 'r', ':']

/-- Rendered error text (`error.Error()`), as bytes. Texts of non-common
errors follow conn.go's `errors.New` messages; for `common` errors only the
leading `CommonErrPrefix` matters to the code, the tail is the message. -/
def errString : RErr → Bytes
  | .readErr => cb ['E', 'O', 'F']
  | .badTerminator => cb ['i', 'n', 'v', 'a', 'l', 'i', 'd', ' ', 't', 'e', 'r', 'm', 'i', 'n', 'a', 't', 'o', 'r']
  | .readFull => cb ['u', 'n', 'e', 'x', 'p', 'e', 'c', 't', 'e', 'd', ' ', 'E', 'O', 'F']
  | .errNil => cb ['n', 'i', 'l', ' ', 'd', 'a', 't', 'a', ' ', 'r', 'e', 't', 'u', 'r', 'n']
  | .panicked => cb ['r', 'u', 'n', 't', 'i', 'm', 'e', ' ', 'e', 'r', 'r', 'o', 'r']
  | .fuelOut => cb ['f', 'u', 'e', 'l']
  | .common m => commonTag ++ m

/-- Whether `pat` occurs at the start of `s`. -/
def begMatch : Bytes → Bytes → Bool
  | [], _ => true
  | _ :: _, [] => false
  | p :: ps, c :: cs => p = c && begMatch ps cs

/-- Whether `pat` occurs contiguously anywhere in `s` (strings.Contains). -/
def containsSub (s pat : Bytes) : Bool :=
  match s with
  | [] => pat.isEmpty
  | _ :: tl => begMatch pat s || containsSub tl pat

/-- The check `strings.Contains(e.Error(), CommonErrPrefix)` from CallN. -/
def isCommonErr (e : RErr) : Bool := containsSub (errString e) commonTag

/-- Value of an ASCII decimal digit, `none` for non-digit bytes. -/
def digVal (c : Nat) : Option Nat :=
  if 48 ≤ c ∧ c ≤ 57 then some (c - 48) else none

/-- Accumulating base-10 evaluation of a digit string; fails on the first
non-digit byte. -/
def digitsValAux : Bytes → Nat → Option Nat
  | [], acc => some acc
  | c :: cs, acc =>
    match digVal c with
    | none => none
    | some d => digitsValAux cs (acc * 10 + d)

/-- Value of a non-empty all-digit byte string. -/
def digitsVal : Bytes → Option Nat
  | [] => none
  | l => digitsValAux l 0

/-- Model of `strconv.ParseInt(string p, 10, 64)`: optional sign, at least
one digit, all digits, result within the signed 64-bit range. -/
def parseIntGo (p : Bytes) : Option Int :=
  match p with
  | [] => none
  | c :: rest =>
    let ds : Bytes := if c = 45 ∨ c = 43 then rest else c :: rest
    match digitsVal ds with
    | none => none
    | some v =>
      let n : Int := if c = 45 then -(v : Int) else (v : Int)
      if n < -(2 ^ 63) ∨ (2 ^ 63 - 1 : Int) < n then none else some n

/-- Decimal digits of `n` written most-significant first, exactly as the
digit loop of `writeLen` produces them: the loop runs while `i != 0`, so
`n = 0` yields no digits at all. The first argument is fuel; `f = n`
always suffices. -/
def decDigitsAux : Nat → Nat → Bytes
  | 0, _ => []
  | f + 1, n => if n = 0 then [] else decDigitsAux f (n / 10) ++ [n % 10 + 48]

/-- Digit field emitted by `writeLen` for length `n` (empty for `n = 0`). -/
def lenField (n : Nat) : Bytes := decDigitsAux n n

/-- Proper decimal rendering of a natural number (digit 0 included),
as `strconv.AppendInt` produces for non-negative values. -/
def decNat (n : Nat) : Bytes := if n = 0 then [48] else decDigitsAux n n

/-- Proper decimal rendering of an `int64` (strconv.AppendInt, base 10). -/
def decInt (i : Int) : Bytes := if i < 0 then 45 :: decNat i.natAbs else decNat i.toNat

/-- Model of `Conn.writeLen`: the type byte, the digit field (empty when the
length is zero - the source loop skips `n = 0`), then CRLF. -/
def writeLen (pre : Nat) (n : Nat) : Bytes := pre :: lenField n ++ CRLF

/-- Argument variants accepted by `writeRequest`'s type switch. The float64
case and the reflective default case of the switch are not modelled. -/
inductive Arg where
  | aInt : Int → Arg
  | aStr : Bytes → Arg
  | aBytes : Bytes → Arg
  | aBool : Bool → Arg
  | aNil : Arg

/-- Payload bytes each switch case passes to writeString/writeBytes:
integers render in decimal, booleans as the digit 1 or 0, nil as the
empty string. -/
def argPayload : Arg → Bytes
  | .aInt n => decInt n
  | .aStr s => s
  | .aBytes b => b
  | .aBool true => [49]
  | .aBool false => [48]
  | .aNil => []

/-- Model of writeString/writeBytes: a `$`-length frame followed by the
payload and CRLF. -/
def writeArg (a : Arg) : Bytes :=
  writeLen 36 (argPayload a).length ++ argPayload a ++ CRLF

/-- Model of `Conn.writeRequest`: a `*`-header counting `1 + len(args)`
elements, the verb as a bulk frame, then each argument as a bulk frame. -/
def writeRequest (cmd : Bytes) (args : List Arg) : Bytes :=
  writeLen 42 (1 + args.length) ++ writeArg (.aStr cmd) ++
    args.foldr (fun a acc => writeArg a ++ acc) []

/-- Model of `bufio.Reader.ReadBytes('\n')` on the explicit stream: the
returned line includes the newline byte; `none` means the stream ended
before any newline (a read error in Go). -/
def readNL : Bytes → Option (Bytes × Bytes)
  | [] => none
  | b :: rest =>
    if b = 10 then some ([10], rest)
    else
      match readNL rest with
      | none => none
      | some (l, r) => some (b :: l, r)

/-- Model of `Conn.readLine`: read through the next newline; a line of at
most two bytes (counting the newline) is `ErrBadTerminator`; otherwise the
last two bytes are stripped, without checking that the stripped byte is a
carriage return. On a read failure the whole stream is consumed. -/
def readLine (s : Bytes) : (Option Bytes × Option RErr) × Bytes :=
  match readNL s with
  | none => ((none, some .readErr), [])
  | some (p, rest) =>
    if p.length ≤ 2 then ((none, some .badTerminator), rest)
    else ((some (p.take (p.length - 2)), none), rest)

/-- Model of `Conn.parseBulkString` given the header body `body` and the
remaining stream: a failed length parse returns an empty byte slice with a
CommonError; length -1 is the nil interface; lengths below -1 panic at the
slice expression; otherwise `io.ReadFull` obtains `n + 2` bytes (short
streams return the zero-padded partial buffer with an error) and the first
`n` are the payload. -/
def parseBulkGo (body : Bytes) (s : Bytes) : (Option RVal × Option RErr) × Bytes :=
  match parseIntGo body with
  | none => ((some (.bytes []), some (.common body)), s)
  | some n =>
    if n = -1 then ((none, none), s)
    else if n < 0 then ((none, some .panicked), s)
    else
      let k := n.toNat + 2
      if s.length < k then
        ((some (.bytes ((s ++ List.replicate (k - s.length) 0).take n.toNat)), some .readFull), [])
      else ((some (.bytes (s.take n.toNat)), none), s.drop k)

/-- Element loop of `Conn.parseArray`: decode `n` replies in order with the
supplied decoder, stopping at the first element error and discarding the
elements collected so far (the Go loop returns `nil, e`). -/
def elemsLoop (dec : Bytes → (Option RVal × Option RErr) × Bytes) :
    Nat → Bytes → (Option (List (Option RVal)) × Option RErr) × Bytes
  | 0, s => ((some [], none), s)
  | k + 1, s =>
    match dec s with
    | ((v, none), s1) =>
      match elemsLoop dec k s1 with
      | ((some vs, none), s2) => ((some (v :: vs), none), s2)
      | ((_, e2), s2) => ((none, e2), s2)
    | ((_, some e), s1) => ((none, some e), s1)

/-- Model of `Conn.readResponse` with a fuel counter bounding the array
nesting depth. The message bytes attached to `common` decode errors stand
in for the Go error texts; only the `CommonErrPrefix` tag is significant.
An Error frame is returned as a CommonError with a nil value; an integer
parse failure returns int64 zero together with the error; an array whose
length parse fails, or whose element decode fails, returns the typed nil
slice (`arr none`) together with the error, because `parseArray`'s
`[]interface{}` nil return is wrapped in a non-nil interface by
`readResponse`. -/
def readResponse : Nat → Bytes → (Option RVal × Option RErr) × Bytes
  | 0, s => ((none, some .fuelOut), s)
  | fuel + 1, s =>
    match readLine s with
    | ((some p, _), s1) =>
      match p with
      | [] => ((none, some .panicked), s1)
      | t :: body =>
        if t = 45 then ((none, some (.common body)), s1)
        else if t = 58 then
          match parseIntGo body with
          | some n => ((some (.int n), none), s1)
          | none => ((some (.int 0), some (.common body)), s1)
        else if t = 43 then ((some (.bytes body), none), s1)
        else if t = 36 then parseBulkGo body s1
        else if t = 42 then
          match parseIntGo body with
          | none => ((some (.arr none), some (.common body)), s1)
          | some n =>
            if n = -1 then ((some (.arr none), none), s1)
            else if n < 0 then ((none, some .panicked), s1)
            else
              match elemsLoop (readResponse fuel) n.toNat s1 with
              | ((some vs, none), s2) => ((some (.arr (some vs)), none), s2)
              | ((_, some e), s2) => ((some (.arr none), some e), s2)
              | ((none, none), s2) => ((some (.arr none), none), s2)
        else ((none, some (.common body)), s1)
    | ((_, e), s1) =>
      match e with
      | some e1 => ((none, some e1), s1)
      | none => ((none, some .panicked), s1)

/-- Model of `Conn.Call`: the bytes written for the request, and the decode
of one reply from the stream. Whenever `readResponse` yields an error, Call
returns the nil interface in place of the decoded value (`return nil, e`);
the socket-deadline and flush error paths of the source likewise return
`nil, e` and are not separately modelled. -/
def CallGo (fuel : Nat) (cmd : Bytes) (args : List Arg) (s : Bytes) :
    Bytes × ((Option RVal × Option RErr) × Bytes) :=
  (writeRequest cmd args,
    match readResponse fuel s with
    | ((_, some e), s1) => ((none, some e), s1)
    | ((v, none), s1) => ((v, none), s1))

/-- Observable trace of one `CallN` execution: the returned pair, how many
times `Call` was invoked, how many times the loop slept, closed the current
connection, and popped a replacement from the pool. -/
structure CNTrace where
  ret : Option RVal
  err : Option RErr
  calls : Nat
  sleeps : Nat
  closes : Nat
  pops : Nat

/-- Loop of `Conn.CallN`, transliterated from the source. `Call` is treated
as a black box: `attempts` lists the `(interface{}, error)` results of the
successive `Call` invocations (on whichever connection is current), and
`popResults` lists whether each successive `pool.Pop()` yields a connection
(an exhausted list behaves as a nil pop). The loop body retries only when
the error text lacks the CommonError tag; in that branch it sleeps, closes,
and either returns `nil, e` (no pool or nil pop) or rebinds the connection
and continues. In every other case - success or CommonError - the loop
simply proceeds to the next iteration, and after `retry` iterations the pair
from the last `Call` is returned. -/
def callNGo : Nat → List (Option RVal × Option RErr) → Bool → List Bool →
    (Option RVal × Option RErr) → Nat → Nat → Nat → Nat → CNTrace
  | 0, _, _, _, last, calls, sleeps, closes, pops =>
    ⟨last.1, last.2, calls, sleeps, closes, pops⟩
  | i + 1, attempts, hasPool, popResults, _, calls, sleeps, closes, pops =>
    let att := attempts.headD (none, none)
    match att.2 with
    | some e =>
      if isCommonErr e then
        callNGo i attempts.tail hasPool popResults att (calls + 1) sleeps closes pops
      else
        if hasPool then
          match popResults with
          | true :: ps =>
            callNGo i attempts.tail hasPool ps att (calls + 1) (sleeps + 1) (closes + 1)
              (pops + 1)
          | _ => ⟨none, some e, calls + 1, sleeps + 1, closes + 1, pops + 1⟩
        else ⟨none, some e, calls + 1, sleeps + 1, closes + 1, pops⟩
    | none => callNGo i attempts.tail hasPool popResults att (calls + 1) sleeps closes pops

/-- Model of `Conn.CallN`: run the retry loop with zero-valued `ret`/`e`. -/
def CallN (retry : Nat) (attempts : List (Option RVal × Option RErr)) (hasPool : Bool)
    (popResults : List Bool) : CNTrace :=
  callNGo retry attempts hasPool popResults (none, none) 0 0 0 0

/-- Pipeline-relevant connection state: the pending count and the write
buffer of encoded, unflushed requests. -/
structure PConn where
  pipeCount : Nat
  wbuf : Bytes

/-- Model of `Conn.PipeSend`: increment the pending count and append the
encoded request to the write buffer without flushing. -/
def PipeSend (c : PConn) (cmd : Bytes) (args : List Arg) : PConn :=
  ⟨c.pipeCount + 1, c.wbuf ++ writeRequest cmd args⟩

/-- Reply loop of `Conn.PipeExec`: decode `n` replies, storing every slot
and overwriting the single error variable each iteration, so the error
returned is the one from the last decode. -/
def pipeLoop (fuel : Nat) : Nat → Bytes → (List (Option RVal) × Option RErr) × Bytes
  | 0, s => (([], none), s)
  | k + 1, s =>
    match readResponse fuel s, k with
    | ((v, e), s1), 0 => (([v], e), s1)
    | ((v, _), s1), _ + 1 =>
      match pipeLoop fuel k s1 with
      | ((vs, e2), s2) => ((v :: vs, e2), s2)

/-- Model of `Conn.PipeExec`: flush the write buffer in one write (the
flushed bytes are the first component), zero the pending count, then run
the reply loop for the previous pending count. -/
def PipeExec (fuel : Nat) (c : PConn) (s : Bytes) :
    Bytes × PConn × ((List (Option RVal) × Option RErr) × Bytes) :=
  (c.wbuf, ⟨0, []⟩, pipeLoop fuel c.pipeCount s)

/-- Stream position after `i` sequential `readResponse` decodes. -/
def streamAfter (fuel : Nat) (s : Bytes) : Nat → Bytes
  | 0 => s
  | i + 1 => streamAfter fuel (readResponse fuel s).2 i

/-- Model of `Conn.TransExec`: issue EXEC via `Call`, discard its error (the
source reassigns `e` to the buffered writer's Flush, which succeeds), then:
a nil interface result is `ErrNil`; an interface holding a `[]interface{}`
(nil or not) is returned by the type assertion as that slice with a nil
error; any other value makes the type assertion panic. The first component
is the request bytes written for EXEC. -/
def TransExec (fuel : Nat) (s : Bytes) :
    Bytes × ((Option (List (Option RVal)) × Option RErr) × Bytes) :=
  let r := (CallGo fuel (cb ['E', 'X', 'E', 'C']) [] s).2
  (writeRequest (cb ['E', 'X', 'E', 'C']) [],
    match r.1.1 with
    | none => ((none, some .errNil), r.2)
    | some (.arr l) => ((l, none), r.2)
    | some _ => ((none, some .panicked), r.2))

/-- Argument list that `Conn.Watch` actually builds: the source ranges over
the freshly allocated `args` slice instead of `keys`, so every slot keeps
its nil zero value and the keys are never copied in. -/
def watchArgs (keys : List Bytes) : List Arg := keys.map (fun _ => Arg.aNil)

/-- Request bytes `Conn.Watch` writes for the given keys. -/
def WatchReq (keys : List Bytes) : Bytes :=
  writeRequest (cb ['W', 'A', 'T', 'C', 'H']) (watchArgs keys)

/-- Concatenation of the encoded element chunks of an array body. -/
def chunksBytes (chunks : List (Bytes × Option RVal)) : Bytes :=
  chunks.foldr (fun pr acc => pr.1 ++ acc) []

theorem readNL_append_no10 (q : Bytes) (r : Bytes) (hq : 10 ∉ q) :
    readNL (q ++ 10 :: r) = some (q ++ [10], r) := by
  induction q with
  | nil => simp [readNL]
  | cons a q ih =>
    have ha : a ≠ 10 := fun h => hq (h ▸ List.mem_cons_self a q)
    have hq2 : 10 ∉ q := fun h => hq (List.mem_cons_of_mem a h)
    simp [readNL, ha, ih hq2]

theorem readLine_frame (p : Bytes) (r : Bytes) (hp : 10 ∉ p) (hne : p ≠ []) :
    readLine (p ++ 13 :: 10 :: r) = ((some p, none), r) := by
  have h1 : 10 ∉ p ++ [13] := by
    intro h
    rcases List.mem_append.1 h with h | h
    · exact hp h
    · simp at h
  have h2 : readNL (p ++ 13 :: 10 :: r) = some ((p ++ [13]) ++ [10], r) := by
    have h3 := readNL_append_no10 (p ++ [13]) r h1
    simpa using h3
  have hlen : ((p ++ [13]) ++ [10]).length = p.length + 2 := by simp
  have hpos : 0 < p.length := List.length_pos.2 hne
  have hgt : ¬ (((p ++ [13]) ++ [10]).length ≤ 2) := by rw [hlen]; omega
  have htake : ((p ++ [13]) ++ [10]).take (((p ++ [13]) ++ [10]).length - 2) = p := by
    rw [hlen]
    have h4 : p ++ [13] ++ [10] = p ++ [13, 10] := by simp
    have h5 : p.length + 2 - 2 = p.length := by omega
    rw [h4, h5]
    exact List.take_left p [13, 10]
  unfold readLine
  rw [h2]
  dsimp only
  rw [if_neg hgt, htake]

/-- Claim C1 (code bug): on a protocol-level CommonError failure, CallN does
not return immediately. The source loop lacks a break on the non-retry
path (its trailing `continue` is a no-op), so with maxAttempts = 2 and a
first attempt failing with a CommonError, a second `Call` is performed and
its result is returned, swallowing the protocol error. The trace also shows
the true sub-parts: no sleep, no close, no pool pop happened. -/
theorem c1_calln_reattempts_after_protocol_error :
    CallN 2 [(none, some (.common (cb ['o', 'o', 'p', 's']))),
             (some (.bytes (cb ['O', 'K'])), none)] true [] =
      ⟨some (.bytes (cb ['O', 'K'])), none, 2, 0, 0, 0⟩ := by rfl

/-- Claim C2 (code bug): CallN does not stop after a successful attempt.
With maxAttempts = 2 and both attempts succeeding, the loop runs `Call`
twice and returns the second attempt's reply, not the first one's. -/
theorem c2_calln_continues_after_success :
    CallN 2 [(some (.bytes (cb ['A'])), none), (some (.bytes (cb ['B'])), none)] true [] =
      ⟨some (.bytes (cb ['B'])), none, 2, 0, 0, 0⟩ := by rfl

/-- Claim C3 (confirmed): encoding Call("SET", "k", "v") produces exactly
the array frame with 3 bulk elements, and decoding +OK CRLF yields the
simple string OK with the whole stream consumed. -/
theorem c3_set_encode_ok_decode :
    writeRequest (cb ['S', 'E', 'T']) [.aStr (cb ['k']), .aStr (cb ['v'])] =
      cb ['*', '3', '\r', '\n', '$', '3', '\r', '\n', 'S', 'E', 'T', '\r', '\n',
          '$', '1', '\r', '\n', 'k', '\r', '\n', '$', '1', '\r', '\n', 'v', '\r', '\n'] ∧
    readResponse 1 (cb ['+', 'O', 'K', '\r', '\n']) =
      ((some (.bytes (cb ['O', 'K'])), none), []) :=
  ⟨by decide, rfl⟩

/-- Claim C5 counterexample: the line `abc` followed by a bare newline has
no CRLF tail, yet readLine accepts it (no terminator error) and returns the
payload with its last byte silently dropped. -/
theorem c5_bare_lf_line_accepted :
    readLine (cb ['a', 'b', 'c', '\n']) = ((some (cb ['a', 'b']), none), []) := by decide

/-- Claim C5 amended: readLine fails with the terminator error exactly when
the consumed line (newline included) is at most two bytes long; any longer
line is accepted with its final two bytes stripped, whether or not the byte
before the newline is a carriage return. -/
theorem c5_readline_terminator_amended (s line rest : Bytes)
    (h : readNL s = some (line, rest)) :
    (line.length ≤ 2 → readLine s = ((none, some .badTerminator), rest)) ∧
    (2 < line.length →
      readLine s = ((some (line.take (line.length - 2)), none), rest)) := by
  constructor
  · intro h2
    unfold readLine
    rw [h]
    dsimp only
    rw [if_pos h2]
  · intro h2
    have h3 : ¬ (line.length ≤ 2) := by omega
    unfold readLine
    rw [h]
    dsimp only
    rw [if_neg h3]

/-- Witness for the amended C5 statement at two concrete streams. -/
theorem c5_readline_terminator_amended_witness :
    readLine (cb ['x', '\n']) = ((none, some .badTerminator), []) ∧
    readLine (cb ['a', 'b', 'c', '\n']) =
      ((some ((cb ['a', 'b', 'c', '\n']).take ((cb ['a', 'b', 'c', '\n']).length - 2)),
        none), []) :=
  ⟨(c5_readline_terminator_amended (cb ['x', '\n']) (cb ['x', '\n']) [] (by decide)).1
      (by decide),
   (c5_readline_terminator_amended (cb ['a', 'b', 'c', '\n']) (cb ['a', 'b', 'c', '\n']) []
      (by decide)).2 (by decide)⟩

/-- Claim C6 (code bug): a zero-length argument is framed without any
length digit - the writeLen digit loop skips n = 0 - so nil and the empty
string are encoded as a dollar sign followed directly by CRLF CRLF, not as
the well-formed frame with the digit 0. Nonzero lengths do carry their
decimal digits. -/
theorem c6_zero_length_arg_has_no_digit :
    writeArg .aNil = cb ['$', '\r', '\n', '\r', '\n'] ∧
    writeArg (.aStr []) = cb ['$', '\r', '\n', '\r', '\n'] ∧
    writeArg (.aStr (cb ['k'])) = cb ['$', '1', '\r', '\n', 'k', '\r', '\n'] := by decide

/-- Claim C7 counterexample: two pipelined PINGs against a stream whose
first reply is an Error frame and whose second is +OK. PipeExec keeps
decoding past the first failure and returns a nil final error, because the
single error variable is overwritten by the successful last decode; the
claimed behavior (return the first decode error, leave remaining slots
undecoded) does not hold. -/
theorem c7_pipeexec_drops_first_error :
    PipeExec 1 (PipeSend (PipeSend ⟨0, []⟩ (cb ['P', 'I', 'N', 'G']) [])
        (cb ['P', 'I', 'N', 'G']) [])
      (cb ['-', 'b', 'a', 'd', '\r', '\n', '+', 'O', 'K', '\r', '\n']) =
    (writeRequest (cb ['P', 'I', 'N', 'G']) [] ++ writeRequest (cb ['P', 'I', 'N', 'G']) [],
     ⟨0, []⟩,
     (([none, some (.bytes (cb ['O', 'K']))], none), [])) := by rfl

/-- Claim C8 (code bug): a null Array reply to EXEC is not surfaced as
ErrNil. parseArray returns a nil `[]interface{}` which readResponse wraps
into a non-nil interface, so TransExec's `ret == nil` check fails and the
caller receives a nil slice with a nil error. ErrNil fires instead for the
cases where Call's first result really is the nil interface, e.g. a null
bulk-string reply. A non-null Array is returned as the ordered element
sequence, as claimed. -/
theorem c8_transexec_null_array_yields_no_error :
    TransExec 1 (cb ['*', '-', '1', '\r', '\n']) =
      (writeRequest (cb ['E', 'X', 'E', 'C']) [], ((none, none), [])) ∧
    TransExec 1 (cb ['$', '-', '1', '\r', '\n']) =
      (writeRequest (cb ['E', 'X', 'E', 'C']) [], ((none, some .errNil), [])) ∧
    TransExec 2 (cb ['*', '1', '\r', '\n', ':', '7', '\r', '\n']) =
      (writeRequest (cb ['E', 'X', 'E', 'C']) [], ((some [some (.int 7)], none), [])) :=
  ⟨rfl, rfl, rfl⟩

/-- Claim C9 (code bug): Watch ranges over the freshly allocated args slice
instead of the keys, so the request carries nil (empty) arguments rather
than the keys: for the single key k1 the wire bytes are WATCH followed by
one empty bulk frame, and they differ from the encoding that actually
carries k1. -/
theorem c9_watch_drops_keys :
    WatchReq [cb ['k', '1']] =
      cb ['*', '2', '\r', '\n', '$', '5', '\r', '\n', 'W', 'A', 'T', 'C', 'H', '\r', '\n',
          '$', '\r', '\n', '\r', '\n'] ∧
    WatchReq [cb ['k', '1']] ≠
      writeRequest (cb ['W', 'A', 'T', 'C', 'H']) [.aStr (cb ['k', '1'])] := by decide

/-- Claim C10 (confirmed): whenever Call fails (its error component is
non-nil), the reply it returns is the nil interface; the partially decoded
value readResponse may have produced is discarded by the `return nil, e`
paths of Call. -/
theorem c10_call_error_nil_reply (fuel : Nat) (cmd : Bytes) (args : List Arg) (s : Bytes)
    (h : (CallGo fuel cmd args s).2.1.2 ≠ none) :
    (CallGo fuel cmd args s).2.1.1 = none := by
  unfold CallGo at h ⊢
  rcases hr : readResponse fuel s with ⟨⟨v, e⟩, s1⟩
  cases e with
  | none => rw [hr] at h; simp at h
  | some err => rfl

/-- Witness for C10 at a concrete failing stream (an unknown reply-type
byte), where the error is non-nil and the reply is nil. -/
theorem c10_call_error_nil_reply_witness :
    (CallGo 1 (cb ['G', 'E', 'T']) [] (cb ['X', '\r', '\n'])).2.1.2 ≠ none ∧
    (CallGo 1 (cb ['G', 'E', 'T']) [] (cb ['X', '\r', '\n'])).2.1.1 = none :=
  ⟨by decide, c10_call_error_nil_reply 1 (cb ['G', 'E', 'T']) [] (cb ['X', '\r', '\n'])
    (by decide)⟩

theorem streamAfter_shift (fuel : Nat) (s s1 : Bytes) (i : Nat)
    (hr : (readResponse fuel s).2 = s1) :
    streamAfter fuel s (i + 1) = streamAfter fuel s1 i := by
  simp [streamAfter, hr]

theorem pipeLoop_spec (fuel : Nat) : ∀ (n : Nat) (s : Bytes),
    pipeLoop fuel n s =
      (((List.range n).map fun i => (readResponse fuel (streamAfter fuel s i)).1.1,
        if n = 0 then none
        else (readResponse fuel (streamAfter fuel s (n - 1))).1.2),
       streamAfter fuel s n)
  | 0, s => by simp [pipeLoop, streamAfter]
  | n + 1, s => by
    rcases hr : readResponse fuel s with ⟨⟨v, e⟩, s1⟩
    have hr2 : (readResponse fuel s).2 = s1 := by rw [hr]
    have h0 : streamAfter fuel s 0 = s := rfl
    cases n with
    | zero =>
      have hr1 : List.range 1 = [0] := by decide
      simp [pipeLoop, hr, hr1, h0, streamAfter]
    | succ j =>
      have ih := pipeLoop_spec fuel (j + 1) s1
      have hsh : ∀ i, streamAfter fuel s (i + 1) = streamAfter fuel s1 i :=
        fun i => streamAfter_shift fuel s s1 i hr2
      rcases hp : pipeLoop fuel (j + 1) s1 with ⟨⟨vs, e2⟩, s2⟩
      have hlhs : pipeLoop fuel (j + 1 + 1) s = ((v :: vs, e2), s2) := by
        rw [show pipeLoop fuel (j + 1 + 1) s =
            (match readResponse fuel s, j + 1 with
             | ((v, e), s1), 0 => (([v], e), s1)
             | ((v, _), s1), _ + 1 =>
               match pipeLoop fuel (j + 1) s1 with
               | ((vs, e2), s2) => ((v :: vs, e2), s2)) from rfl, hr]
        dsimp only
        rw [hp]
      rw [hp] at ih
      have hvs : vs = (List.range (j + 1)).map
          fun i => (readResponse fuel (streamAfter fuel s1 i)).1.1 := by
        have := congrArg (fun q => q.1.1) ih
        simpa using this
      have he2 : e2 = (readResponse fuel (streamAfter fuel s1 j)).1.2 := by
        have := congrArg (fun q => q.1.2) ih
        simpa using this
      have hs2 : s2 = streamAfter fuel s1 (j + 1) := by
        have := congrArg (fun q => q.2) ih
        simpa using this
      have hrange : List.range (j + 1 + 1) = 0 :: (List.range (j + 1)).map Nat.succ :=
        List.range_succ_eq_map (j + 1)
      have hmap : (List.range (j + 1 + 1)).map
          (fun i => (readResponse fuel (streamAfter fuel s i)).1.1) = v :: vs := by
        rw [hrange, List.map_cons, List.map_map, h0, hr, hvs]
        refine congrArg (fun l => (v :: l : List (Option RVal))) ?_
        exact List.map_congr_left fun i _ => by
          simp only [Function.comp_apply, Nat.succ_eq_add_one, hsh i]
      have herr : (readResponse fuel (streamAfter fuel s (j + 1 + 1 - 1))).1.2 = e2 := by
        rw [show j + 1 + 1 - 1 = j + 1 from rfl, hsh j, he2]
      rw [hlhs, hmap, if_neg (by omega : ¬(j + 1 + 1 = 0)), herr,
        show streamAfter fuel s (j + 1 + 1) = streamAfter fuel s1 (j + 1) from hsh (j + 1),
        hs2]

/-- Claim C7 amended: PipeExec flushes the whole buffered request batch in
one write, resets the pending count to zero, and decodes exactly
pipeCount replies in submission order (slot i holds the value of the i-th
sequential decode); but the error it returns is the one from the LAST
decode (none when nothing was pending), not the first error encountered:
decoding does not stop at a failed slot, and earlier errors are
overwritten. -/
theorem c7_pipeexec_amended (fuel : Nat) (c : PConn) (s : Bytes) :
    PipeExec fuel c s =
      (c.wbuf, ⟨0, []⟩,
       (((List.range c.pipeCount).map
           fun i => (readResponse fuel (streamAfter fuel s i)).1.1,
         if c.pipeCount = 0 then none
         else (readResponse fuel (streamAfter fuel s (c.pipeCount - 1))).1.2),
        streamAfter fuel s c.pipeCount)) := by
  unfold PipeExec
  rw [pipeLoop_spec]

theorem decDigitsAux_mem (f : Nat) : ∀ (n c : Nat), c ∈ decDigitsAux f n →
    48 ≤ c ∧ c ≤ 57 := by
  induction f with
  | zero => intro n c h; simp [decDigitsAux] at h
  | succ f ih =>
    intro n c h
    by_cases hn : n = 0
    · simp [decDigitsAux, hn] at h
    · rw [decDigitsAux, if_neg hn] at h
      rcases List.mem_append.1 h with h | h
      · exact ih (n / 10) c h
      · have hc : c = n % 10 + 48 := by simpa using h
        have hm : n % 10 < 10 := Nat.mod_lt n (by omega)
        omega

theorem ten_not_mem_decNat (n : Nat) : 10 ∉ decNat n := by
  intro h
  unfold decNat at h
  by_cases hn : n = 0
  · rw [if_pos hn] at h; simp at h
  · rw [if_neg hn] at h
    have := decDigitsAux_mem n n 10 h
    omega

theorem digitsValAux_append (xs ys : Bytes) (acc : Nat) :
    digitsValAux (xs ++ ys) acc =
      match digitsValAux xs acc with
      | none => none
      | some v => digitsValAux ys v := by
  induction xs generalizing acc with
  | nil => simp [digitsValAux]
  | cons c cs ih =>
    rw [List.cons_append]
    rw [show digitsValAux (c :: (cs ++ ys)) acc =
        (match digVal c with
         | none => none
         | some d => digitsValAux (cs ++ ys) (acc * 10 + d)) from rfl]
    rw [show digitsValAux (c :: cs) acc =
        (match digVal c with
         | none => none
         | some d => digitsValAux cs (acc * 10 + d)) from rfl]
    rcases hdc : digVal c with _ | d
    · rfl
    · dsimp only
      exact ih (acc * 10 + d)

theorem digitsValAux_decDigitsAux (f : Nat) : ∀ (n acc : Nat), n < 10 ^ f →
    digitsValAux (decDigitsAux f n) acc =
      some (acc * 10 ^ (decDigitsAux f n).length + n) := by
  induction f with
  | zero =>
    intro n acc h
    have hn : n = 0 := by simpa using Nat.lt_one_iff.1 (by simpa using h)
    simp [decDigitsAux, digitsValAux, hn]
  | succ f ih =>
    intro n acc h
    by_cases hn : n = 0
    · simp [decDigitsAux, digitsValAux, hn]
    · rw [decDigitsAux, if_neg hn]
      have hdiv : n / 10 < 10 ^ f := by
        have h10 : (10 : Nat) ^ (f + 1) = 10 ^ f * 10 := pow_succ 10 f
        exact Nat.div_lt_of_lt_mul (by omega)
      rw [digitsValAux_append, ih (n / 10) acc hdiv]
      have hd : digVal (n % 10 + 48) = some (n % 10) := by
        have hm : n % 10 < 10 := Nat.mod_lt n (by omega)
        unfold digVal
        rw [if_pos (by omega)]
        congr 1
      dsimp only
      rw [show digitsValAux [n % 10 + 48]
            (acc * 10 ^ (decDigitsAux f (n / 10)).length + n / 10) =
          (match digVal (n % 10 + 48) with
           | none => none
           | some d =>
               some ((acc * 10 ^ (decDigitsAux f (n / 10)).length + n / 10) * 10 + d))
          from rfl, hd]
      have hlen : (decDigitsAux f (n / 10) ++ [n % 10 + 48]).length =
          (decDigitsAux f (n / 10)).length + 1 := by simp
      rw [hlen]
      dsimp only
      congr 1
      have hdm : 10 * (n / 10) + n % 10 = n := Nat.div_add_mod n 10
      have hp : (10 : Nat) ^ ((decDigitsAux f (n / 10)).length + 1) =
          10 ^ (decDigitsAux f (n / 10)).length * 10 :=
        pow_succ 10 (decDigitsAux f (n / 10)).length
      rw [hp]
      have hr : (acc * 10 ^ (decDigitsAux f (n / 10)).length + n / 10) * 10 + n % 10 =
          acc * (10 ^ (decDigitsAux f (n / 10)).length * 10) + (10 * (n / 10) + n % 10) := by
        ring
      rw [hr, hdm]

theorem digitsVal_decNat (n : Nat) : digitsVal (decNat n) = some n := by
  by_cases hn : n = 0
  · subst hn
    decide
  · have hne : decDigitsAux n n ≠ [] := by
      cases n with
      | zero => omega
      | succ m =>
        rw [decDigitsAux, if_neg hn]
        simp
    have hv : digitsValAux (decDigitsAux n n) 0 = some n := by
      have hb : n < 10 ^ n := Nat.lt_pow_self (by omega) n
      have := digitsValAux_decDigitsAux n n 0 hb
      simpa using this
    unfold decNat
    rw [if_neg hn]
    rcases hL : decDigitsAux n n with _ | ⟨c, cs⟩
    · exact absurd hL hne
    · rw [show digitsVal (c :: cs) = digitsValAux (c :: cs) 0 from rfl]
      rw [← hL]
      exact hv

theorem parseIntGo_decNat (n : Nat) (h : (n : Int) ≤ 2 ^ 63 - 1) :
    parseIntGo (decNat n) = some (n : Int) := by
  have hhead : ∀ c cs, decNat n = c :: cs → (48 ≤ c ∧ c ≤ 57) := by
    intro c cs hL
    have hmem : c ∈ decNat n := by rw [hL]; exact List.mem_cons_self c cs
    unfold decNat at hmem
    by_cases hn : n = 0
    · rw [if_pos hn] at hmem
      have : c = 48 := by simpa using hmem
      omega
    · rw [if_neg hn] at hmem
      exact decDigitsAux_mem n n c hmem
  rcases hL : decNat n with _ | ⟨c, cs⟩
  · exfalso
    unfold decNat at hL
    by_cases hn : n = 0
    · rw [if_pos hn] at hL; simp at hL
    · rw [if_neg hn] at hL
      have hb : n < 10 ^ n := Nat.lt_pow_self (by omega) n
      have := digitsValAux_decDigitsAux n n 0 hb
      rw [hL] at this
      simp [digitsValAux] at this
      omega
  · have hc := hhead c cs hL
    have hc45 : ¬(c = 45 ∨ c = 43) := by omega
    have hdv : digitsVal (c :: cs) = some n := by rw [← hL]; exact digitsVal_decNat n
    rw [show parseIntGo (c :: cs) =
        (match digitsVal (if c = 45 ∨ c = 43 then cs else c :: cs) with
         | none => none
         | some v =>
           if (if c = 45 then -(v : Int) else (v : Int)) < -(2 ^ 63) ∨
              (2 ^ 63 - 1 : Int) < (if c = 45 then -(v : Int) else (v : Int)) then none
           else some (if c = 45 then -(v : Int) else (v : Int))) from rfl]
    rw [if_neg hc45, hdv]
    dsimp only
    have hc45b : ¬(c = 45) := by omega
    rw [if_neg hc45b]
    have hbig : ((2 : Int) ^ 63) = 9223372036854775808 := by norm_num
    rw [hbig] at h
    rw [if_neg (by rw [hbig]; omega)]

theorem elemsLoop_chunks (fuel : Nat) :
    ∀ (chunks : List (Bytes × Option RVal)) (rest : Bytes),
    (∀ pr ∈ chunks, ∀ r2, readResponse fuel (pr.1 ++ r2) = ((pr.2, none), r2)) →
    elemsLoop (readResponse fuel) chunks.length (chunksBytes chunks ++ rest) =
      ((some (chunks.map Prod.snd), none), rest) := by
  intro chunks
  induction chunks with
  | nil =>
    intro rest _
    simp [chunksBytes, elemsLoop]
  | cons pr tl ih =>
    intro rest hdec
    have hhead := hdec pr (List.mem_cons_self pr tl) (chunksBytes tl ++ rest)
    have htl : ∀ q ∈ tl, ∀ r2, readResponse fuel (q.1 ++ r2) = ((q.2, none), r2) :=
      fun q hq => hdec q (List.mem_cons_of_mem pr hq)
    have hcb : chunksBytes (pr :: tl) = pr.1 ++ chunksBytes tl := rfl
    rw [show (pr :: tl).length = tl.length + 1 from rfl, hcb, List.append_assoc]
    rw [show elemsLoop (readResponse fuel) (tl.length + 1) (pr.1 ++ (chunksBytes tl ++ rest)) =
        (match readResponse fuel (pr.1 ++ (chunksBytes tl ++ rest)) with
         | ((v, none), s1) =>
           (match elemsLoop (readResponse fuel) tl.length s1 with
            | ((some vs, none), s2) => ((some (v :: vs), none), s2)
            | ((_, e2), s2) => ((none, e2), s2))
         | ((_, some e), s1) => ((none, some e), s1)) from rfl]
    rw [hhead]
    dsimp only
    rw [ih rest htl]
    rfl

theorem parseBulkGo_decNat (n : Nat) (s : Bytes) (hn : (n : Int) ≤ 2 ^ 63 - 1)
    (hs : n + 2 ≤ s.length) :
    parseBulkGo (decNat n) s = ((some (.bytes (s.take n)), none), s.drop (n + 2)) := by
  unfold parseBulkGo
  rw [parseIntGo_decNat n hn]
  dsimp only
  rw [if_neg (by omega : ¬((n : Int) = -1)), if_neg (by omega : ¬((n : Int) < 0)),
    Int.toNat_natCast, if_neg (by omega : ¬(s.length < n + 2))]

/-- Claim C4 counterexample: a bulk-string header with length -2 does not
make the decoder read n + 2 bytes and return a payload; the slice
expression `result[:n]` panics at negative n, so the decode faults without
consuming anything past the header line. -/
theorem c4_negative_bulk_len_panics :
    readResponse 1 (cb ['$', '-', '2', '\r', '\n', 'a', 'b']) =
      ((none, some .panicked), cb ['a', 'b']) := by rfl

/-- Claim C4 amended: (1) a bulk header of length -1 yields the null bulk
value (the nil interface) with no further bytes read; (2) for n at least 0
(and within int64 range) exactly n + 2 further bytes are consumed and the
first n are returned as the payload; (3) a `*-1` header yields the null
array value (Go's nil reply slice) with no further bytes read; (4) a `*n`
header with n at least 0 decodes exactly n replies recursively, in order:
for any list of n element encodings that each decode to their value while
consuming exactly their own bytes, the array decode returns those n values
in submission order and consumes exactly the concatenation. The amendment
over the original claim: lengths at most -2 make the decoder panic
(see the counterexample) instead of reading n + 2 bytes. -/
theorem c4_bulk_array_decode_amended :
    (∀ (f : Nat) (rest : Bytes),
      readResponse (f + 1) (cb ['$', '-', '1', '\r', '\n'] ++ rest) =
        ((none, none), rest)) ∧
    (∀ (f n : Nat) (s : Bytes), (n : Int) ≤ 2 ^ 63 - 1 → n + 2 ≤ s.length →
      readResponse (f + 1) (36 :: decNat n ++ 13 :: 10 :: s) =
        ((some (.bytes (s.take n)), none), s.drop (n + 2))) ∧
    (∀ (f : Nat) (rest : Bytes),
      readResponse (f + 1) (cb ['*', '-', '1', '\r', '\n'] ++ rest) =
        ((some (.arr none), none), rest)) ∧
    (∀ (fuel : Nat) (chunks : List (Bytes × Option RVal)) (rest : Bytes),
      (chunks.length : Int) ≤ 2 ^ 63 - 1 →
      (∀ pr ∈ chunks, ∀ r2, readResponse fuel (pr.1 ++ r2) = ((pr.2, none), r2)) →
      readResponse (fuel + 1)
          (42 :: decNat chunks.length ++ 13 :: 10 :: (chunksBytes chunks ++ rest)) =
        ((some (.arr (some (chunks.map Prod.snd))), none), rest)) := by
  have hpi1 : parseIntGo ([45, 49] : Bytes) = some (-1) := by decide
  refine ⟨?_, ?_, ?_, ?_⟩
  · intro f rest
    have hl := readLine_frame ([36, 45, 49] : Bytes) rest (by decide) (by decide)
    simp only [List.cons_append, List.nil_append] at hl
    rw [show cb ['$', '-', '1', '\r', '\n'] ++ rest =
        ([36, 45, 49] : Bytes) ++ 13 :: 10 :: rest from rfl]
    simp [readResponse, hl, parseBulkGo, hpi1]
  · intro f n s hn hs
    have hp10 : (10 : Nat) ∉ (36 :: decNat n : Bytes) := by
      intro hmem
      rcases List.mem_cons.1 hmem with h36 | hmem2
      · omega
      · exact ten_not_mem_decNat n hmem2
    have hl := readLine_frame (36 :: decNat n) s hp10 (by simp)
    simp only [List.cons_append, List.nil_append] at hl
    have hpb := parseBulkGo_decNat n s hn hs
    simp [readResponse, hl, hpb]
  · intro f rest
    have hl := readLine_frame ([42, 45, 49] : Bytes) rest (by decide) (by decide)
    simp only [List.cons_append, List.nil_append] at hl
    rw [show cb ['*', '-', '1', '\r', '\n'] ++ rest =
        ([42, 45, 49] : Bytes) ++ 13 :: 10 :: rest from rfl]
    simp [readResponse, hl, hpi1]
  · intro fuel chunks rest hlen hdec
    have hp10 : (10 : Nat) ∉ (42 :: decNat chunks.length : Bytes) := by
      intro hmem
      rcases List.mem_cons.1 hmem with h42 | hmem2
      · omega
      · exact ten_not_mem_decNat chunks.length hmem2
    have hl := readLine_frame (42 :: decNat chunks.length) (chunksBytes chunks ++ rest)
      hp10 (by simp)
    simp only [List.cons_append, List.nil_append] at hl
    have hpi := parseIntGo_decNat chunks.length hlen
    have hel := elemsLoop_chunks fuel chunks rest hdec
    have h1 : ¬((chunks.length : Int) = -1) := by omega
    have h2 : ¬((chunks.length : Int) < 0) := by omega
    simp [readResponse, hl, hpi, h1, h2, Int.toNat_natCast, hel]

/-- Witness for the amended C4 statement: a null bulk, a 2-byte bulk, a
null array, and a 2-element array whose second element is itself an array,
all decoded at concrete inputs. -/
theorem c4_bulk_array_decode_amended_witness :
    readResponse 1 (cb ['$', '-', '1', '\r', '\n', 'z']) = ((none, none), cb ['z']) ∧
    readResponse 1 (cb ['$', '2', '\r', '\n', 'a', 'b', '\r', '\n', 'z']) =
      ((some (.bytes ((cb ['a', 'b', '\r', '\n', 'z']).take 2)), none),
        (cb ['a', 'b', '\r', '\n', 'z']).drop 4) ∧
    readResponse 1 (cb ['*', '-', '1', '\r', '\n', 'z']) =
      ((some (.arr none), none), cb ['z']) ∧
    readResponse 3
        (cb ['*', '2', '\r', '\n', ':', '7', '\r', '\n',
             '*', '1', '\r', '\n', '+', 'A', '\r', '\n', 'z']) =
      ((some (.arr (some [some (.int 7),
          some (.arr (some [some (.bytes (cb ['A']))]))])), none), cb ['z']) := by
  refine ⟨c4_bulk_array_decode_amended.1 0 (cb ['z']), ?_,
    c4_bulk_array_decode_amended.2.2.1 0 (cb ['z']), ?_⟩
  · exact c4_bulk_array_decode_amended.2.1 0 2 (cb ['a', 'b', '\r', '\n', 'z'])
      (by norm_num) (by norm_num [cb])
  · have hinner : ∀ q ∈ ([(cb ['+', 'A', '\r', '\n'], some (RVal.bytes (cb ['A'])))] :
        List (Bytes × Option RVal)), ∀ r3,
        readResponse 1 (q.1 ++ r3) = ((q.2, none), r3) := by
      intro q hq r3
      simp only [List.mem_singleton] at hq
      subst hq
      have hl := readLine_frame ([43, 65] : Bytes) r3 (by decide) (by decide)
      simp only [List.cons_append, List.nil_append] at hl
      rw [show cb ['+', 'A', '\r', '\n'] ++ r3 = ([43, 65] : Bytes) ++ 13 :: 10 :: r3
        from rfl, show ([43, 65] : Bytes) ++ 13 :: 10 :: r3 = 43 :: 65 :: 13 :: 10 :: r3
        from rfl]
      simp [readResponse, hl]
      decide
    have hchunks : ∀ pr ∈ ([(cb [':', '7', '\r', '\n'], some (RVal.int 7)),
        (cb ['*', '1', '\r', '\n', '+', 'A', '\r', '\n'],
          some (RVal.arr (some [some (RVal.bytes (cb ['A']))])))] :
        List (Bytes × Option RVal)), ∀ r2,
        readResponse 2 (pr.1 ++ r2) = ((pr.2, none), r2) := by
      intro pr hpr r2
      simp only [List.mem_cons, List.mem_singleton, List.not_mem_nil, or_false] at hpr
      rcases hpr with rfl | rfl
      · have hl := readLine_frame ([58, 55] : Bytes) r2 (by decide) (by decide)
        simp only [List.cons_append, List.nil_append] at hl
        have hpi : parseIntGo ([55] : Bytes) = some 7 := by decide
        rw [show cb [':', '7', '\r', '\n'] ++ r2 = 58 :: 55 :: 13 :: 10 :: r2 from rfl]
        simp [readResponse, hl, hpi]
      · have h2 := c4_bulk_array_decode_amended.2.2.2 1
          [(cb ['+', 'A', '\r', '\n'], some (RVal.bytes (cb ['A'])))] r2 (by norm_num)
          (fun q hq r3 => hinner q hq r3)
        exact h2
    exact c4_bulk_array_decode_amended.2.2.2 2
      [(cb [':', '7', '\r', '\n'], some (RVal.int 7)),
       (cb ['*', '1', '\r', '\n', '+', 'A', '\r', '\n'],
         some (RVal.arr (some [some (RVal.bytes (cb ['A']))])))]
      (cb ['z']) (by norm_num) hchunks
